import Mathlib

/-!
Verification development for the flstandards federated-learning repository.

The repository snapshot contains the exploratory notebooks (the custom
weighted loss, the cloud transaction loader and the per-bank local
evaluation pipeline), the orchestration scripts and the design
documentation.  The aggregator strategy and the participant agent of the
federated stack (server.py, client.py) are referenced by the scripts and
the README but their code is not part of the snapshot, so those two
components are modelled from the design specification; everything else is
embedded directly from the notebook source.

Numeric values are embedded as rationals: the aggregation formulas of the
specification are exact weighted averages, and the notebook constants
(1.0, 0.01, the recorded AUC values) are decimal literals that rationals
represent exactly.
-/

namespace FLStandards

/-- One trainable layer of a model, flattened to an ordered list of
numeric entries. -/
abbrev Layer := List ℚ

/-- ParameterVector: an ordered sequence of numeric arrays, one per
trainable layer. -/
abbrev ParameterVector := List Layer

/-- The shape signature of a ParameterVector: the ordered list of per-layer
entry counts.  Two ParameterVectors are shape-compatible when their shape
signatures are equal. -/
def shapeSig (pv : ParameterVector) : List ℕ := pv.map List.length

/-- FitResult: what a participant reports after local training — the
post-training ParameterVector, the number of local training samples used,
and the training metric (local training AUC). -/
structure FitResult where
  params : ParameterVector
  sampleCount : ℕ
  localTrainAuc : ℚ
deriving DecidableEq, Repr

/-- Error raised by the aggregator strategy. -/
inductive AggError where
  | noViableResults
deriving DecidableEq, Repr

/-- Modelled from the spec: step 1 of aggregate_fit of the Aggregator
Strategy (server code absent from the snapshot) — discard the entries of
the result sequence whose participant id is present in failures. -/
def survivors (results : List (ℕ × FitResult)) (failures : List ℕ) :
    List (ℕ × FitResult) :=
  results.filter (fun pr => ! failures.contains pr.1)

/-- Total weight of a list of fit results: the sum of the sample counts,
taken as a rational. -/
def totalWeight (l : List FitResult) : ℚ :=
  (l.map (fun r => (r.sampleCount : ℚ))).sum

/-- The sample-count-weighted average of the entries at aligned position
(layer i, coordinate j) across a list of fit results. -/
def weightedEntry (l : List FitResult) (i j : ℕ) : ℚ :=
  (l.map (fun r => (r.sampleCount : ℚ) * ((r.params.getD i []).getD j 0))).sum
    / totalWeight l

/-- Modelled from the spec: step 2 of aggregate_fit — for each per-layer
array position, compute the sample-count-weighted average of the surviving
participants.  The output shape is taken from the first surviving result
(shapes must already match, verified at agent-contract level). -/
def aggParams (l : List FitResult) : ParameterVector :=
  match l with
  | [] => []
  | r :: _ =>
      (List.range r.params.length).map (fun i =>
        (List.range (r.params.getD i []).length).map (fun j =>
          weightedEntry l i j))

/-- Modelled from the spec: aggregate_fit of the Aggregator Strategy
(server code absent from the snapshot).  Discards failed entries; with
zero survivors it fails with NoViableResults, otherwise it returns the
sample-count-weighted average of the surviving ParameterVectors. -/
def aggregate_fit (roundIndex : ℕ) (results : List (ℕ × FitResult))
    (failures : List ℕ) : Except AggError ParameterVector :=
  match survivors results failures with
  | [] => .error AggError.noViableResults
  | surv => .ok (aggParams (surv.map Prod.snd))

/-- Modelled from the spec: step 4 of aggregate_fit — the training metrics
are aggregated via the same sample-count-weighted average, producing one
aggregated local training AUC value per round. -/
def aggTrainingMetric (l : List FitResult) : ℚ :=
  (l.map (fun r => (r.sampleCount : ℚ) * r.localTrainAuc)).sum / totalWeight l

/-- Federation Run: the process-wide state holding the current global
ParameterVector and the round index. -/
structure FederationRun where
  globalParams : ParameterVector
  roundIndex : ℕ
deriving DecidableEq, Repr

/-- Modelled from the spec: the Aggregating phase of the Round
Coordinator (server code absent from the snapshot) — invoke aggregate_fit
on the collected results; on success install the new global
ParameterVector and advance the round index; on NoViableResults the round
is aborted and the run state is left unchanged. -/
def runAggregate (run : FederationRun) (results : List (ℕ × FitResult))
    (failures : List ℕ) : FederationRun :=
  match aggregate_fit run.roundIndex results failures with
  | .ok pv => { globalParams := pv, roundIndex := run.roundIndex + 1 }
  | .error _ => run

/-! ### Participant-side definitions embedded from the notebook source -/

/-- Arithmetic mean used by the loss: K.mean of a list of values. -/
def mean (l : List ℚ) : ℚ := l.sum / l.length

/-- Weight attached to a positive (suspicious) training label:
fraud_weight = ones * 1.0 in the notebook. -/
def fraud_weight : ℚ := 1

/-- Weight attached to a negative training label:
non_fraud_weight = ones * 0.01 in the notebook. -/
def non_fraud_weight : ℚ := 0.01

/-- The custom weighted loss of the notebook: elementwise binary
cross-entropy, multiplied by a per-example weight chosen by
tf.where on the condition y_true equals 1, then averaged.  The binary
cross-entropy kernel itself is an external library function and is taken
as a parameter. -/
def weighted_loss (bce : ℚ → ℚ → ℚ) (yTrue yPred : List ℚ) : ℚ :=
  let loss := List.zipWith bce yTrue yPred
  let weight := yTrue.map (fun t => if t = 1 then fraud_weight else non_fraud_weight)
  mean (List.zipWith (· * ·) loss weight)

/-- The training loss as the specification describes it: the mean over
examples of the binary cross-entropy of each example multiplied by a
per-example weight that is fraud_weight on a positive label and
non_fraud_weight otherwise.  Stated independently of weighted_loss so the
two can be compared. -/
def specWeightedLoss (bce : ℚ → ℚ → ℚ) (yTrue yPred : List ℚ) : ℚ :=
  mean (List.zipWith
    (fun t p => bce t p * (if t = 1 then fraud_weight else non_fraud_weight))
    yTrue yPred)

/-- Error raised by a participant during evaluation. -/
inductive EvalError where
  | insufficientLabelDiversity
deriving DecidableEq, Repr

/-- Modelled from the spec: evaluate of the Participant Agent (client
code absent from the snapshot).  Scores the given parameters on the local
held-out split; the AUC is undefined when the evaluation labels contain
only one class, in which case the call fails with
InsufficientLabelDiversity instead of returning a fabricated value.  The
AUC scorer itself is external and is taken as a parameter; the result is
the sample count paired with the scored metric. -/
def evaluate (auc : List ℚ → List ℚ → ℚ) (yTest preds : List ℚ) :
    Except EvalError (ℕ × ℚ) :=
  if (0 : ℚ) ∈ yTest ∧ (1 : ℚ) ∈ yTest then
    .ok (yTest.length, auc yTest preds)
  else
    .error EvalError.insufficientLabelDiversity

/-- Modelled from the spec: aggregate_evaluate of the Aggregator Strategy
(server code absent from the snapshot) for one metric stream — each entry
is either a participant result (sample count, metric value) or that
participant's failure; failed participants are excluded from the
sample-count-weighted average, not treated as zeros. -/
def aggregate_evaluate (entries : List (Except EvalError (ℕ × ℚ))) : ℚ :=
  let ok := entries.filterMap (fun e =>
    match e with
    | .ok p => some p
    | .error _ => none)
  (ok.map (fun p => (p.1 : ℚ) * p.2)).sum / (ok.map (fun p => (p.1 : ℚ))).sum

/-- A flattened transaction record as produced by json parsing followed by
pd.json_normalize with separator "_": a list of column-name and value
pairs. -/
abbrev Transaction := List (String × ℚ)

/-- load_transactions of the notebook: attempt the cloud download and the
json parse (an external effect, taken here as its outcome), return the
parsed list on success and silently return the empty list on any
exception. -/
def load_transactions (download : Except String (List Transaction)) :
    List Transaction :=
  match download with
  | .ok txs => txs
  | .error _ => []

/-- The column structure of a pandas DataFrame; the notebook code that the
claims concern only inspects which columns exist. -/
structure DataFrame where
  columns : List String
deriving DecidableEq, Repr

/-- A python error surfaced by the notebook pipeline. -/
inductive PyError where
  | keyError (missing : List String)
deriving DecidableEq, Repr

/-- pd.json_normalize on the parsed transaction list: the resulting frame
has one column per distinct flattened key. -/
def json_normalize (txs : List Transaction) : DataFrame :=
  ⟨(txs.map (fun t => t.map Prod.fst)).flatten.dedup⟩

/-- The party count columns added by the notebook for the predefined
party type-role combinations; the reindex with fill_value 0 makes them
present even on an empty frame. -/
def party_columns : List String := ["party_individual_UBO", "party_entity_UBO"]

/-- The five transaction feature columns selected by the notebook. -/
def featureColumns : List String :=
  ["Transaction_transaction_type",
   "Transaction_currency_amount",
   "Transaction_account_country_code",
   "Transaction_transaction_beneficiary_country_code",
   "Transaction_transaction_beneficiary"]

/-- DataFrame column selection df with a list of requested columns:
pandas raises KeyError naming the requested columns that are absent. -/
def selectColumns (df : DataFrame) (cols : List String) :
    Except PyError DataFrame :=
  let missing := cols.filter (fun c => ! df.columns.contains c)
  if missing.isEmpty then .ok ⟨cols⟩ else .error (PyError.keyError missing)

/-- The data-loading and feature-selection prefix of evaluate_model in
the notebook: load the transactions for the bank, normalize them, append
the party count columns, then select the feature columns X and the label
column y.  Model training past this point is external to the claims. -/
def evaluate_model (download : Except String (List Transaction)) :
    Except PyError DataFrame := do
  let transactions := load_transactions download
  let df0 := json_normalize transactions
  let df : DataFrame := ⟨df0.columns ++ party_columns⟩
  let x ← selectColumns df (featureColumns ++ party_columns)
  let _y ← selectColumns df ["Transaction_local_label"]
  return x

/-! ### Concrete data used by the witnesses -/

/-- The two-participant scenario of the specification: sample counts 3000
and 1000, single-layer parameters with values 1.0 and 2.0. -/
def c1Results : List (ℕ × FitResult) :=
  [(1, ⟨[[1]], 3000, 0⟩), (2, ⟨[[2]], 1000, 0⟩)]

/-- The aggregated ParameterVector of the two-participant scenario. -/
def c1Agg : ParameterVector := [[5/4]]

/-- The recorded federated run of the notebook: four participants, 4000
training samples each, with the four recorded local training AUC values. -/
def recordedRun : List (ℕ × FitResult) :=
  [(1, ⟨[[1]], 4000, 0.5619037130440171⟩),
   (2, ⟨[[1]], 4000, 0.9998835463760644⟩),
   (3, ⟨[[1]], 4000, 0.7388128731215261⟩),
   (4, ⟨[[1]], 4000, 1.0⟩)]

/- ### Helper lemmas about the aggregation -/

theorem shapeSig_length (pv : ParameterVector) :
    (shapeSig pv).length = pv.length := by
  simp [shapeSig]

theorem shapeSig_getD (pv : ParameterVector) (i : ℕ) :
    (shapeSig pv).getD i 0 = (pv.getD i []).length := by
  by_cases h : i < pv.length
  · rw [List.getD_eq_getElem _ _ (by simpa [shapeSig] using h),
      List.getD_eq_getElem _ _ h]
    simp [shapeSig]
  · rw [List.getD_eq_default _ _ (by simpa [shapeSig] using Nat.le_of_not_lt h),
      List.getD_eq_default _ _ (Nat.le_of_not_lt h)]
    rfl

theorem aggParams_cons (r : FitResult) (rs : List FitResult) :
    aggParams (r :: rs) =
      (List.range r.params.length).map (fun i =>
        (List.range (r.params.getD i []).length).map (fun j =>
          weightedEntry (r :: rs) i j)) := rfl

theorem aggParams_entry (r : FitResult) (rs : List FitResult) (i j : ℕ)
    (hi : i < r.params.length) (hj : j < (r.params.getD i []).length) :
    ((aggParams (r :: rs)).getD i []).getD j 0 = weightedEntry (r :: rs) i j := by
  have houter : (aggParams (r :: rs)).getD i [] =
      (List.range (r.params.getD i []).length).map (fun j =>
        weightedEntry (r :: rs) i j) := by
    rw [aggParams_cons, List.getD_eq_getElem _ _ (by simpa using hi)]
    simp
  rw [houter, List.getD_eq_getElem _ _ (by simpa using hj)]
  simp

theorem aggregate_fit_ok (k : ℕ) (results : List (ℕ × FitResult))
    (failures : List ℕ) (g : ParameterVector)
    (h : aggregate_fit k results failures = .ok g) :
    survivors results failures ≠ [] ∧
      g = aggParams ((survivors results failures).map Prod.snd) := by
  unfold aggregate_fit at h
  cases hs : survivors results failures with
  | nil =>
      rw [hs] at h
      exact absurd h (by simp)
  | cons r rs =>
      rw [hs] at h
      exact ⟨by simp [hs], (Except.ok.inj h).symm⟩

theorem list_map_range_getD (l : List ℚ) :
    (List.range l.length).map (fun j => l.getD j 0) = l := by
  apply List.ext_getElem (by simp)
  intro n h1 h2
  simp only [List.getElem_map, List.getElem_range]
  exact List.getD_eq_getElem l 0 h2

theorem pv_map_range_getD (pv : ParameterVector) :
    (List.range pv.length).map (fun i =>
      (List.range (pv.getD i []).length).map (fun j => (pv.getD i []).getD j 0))
      = pv := by
  apply List.ext_getElem (by simp)
  intro n h1 h2
  simp only [List.getElem_map, List.getElem_range]
  rw [List.getD_eq_getElem pv [] h2]
  exact list_map_range_getD _

theorem weightedEntry_single (r : FitResult) (i j : ℕ)
    (hw : 0 < r.sampleCount) :
    weightedEntry [r] i j = (r.params.getD i []).getD j 0 := by
  unfold weightedEntry totalWeight
  simp only [List.map_cons, List.map_nil, List.sum_cons, List.sum_nil, add_zero]
  exact mul_div_cancel_left₀ _ (by exact_mod_cast hw.ne')

theorem aggParams_single (r : FitResult) (hw : 0 < r.sampleCount) :
    aggParams [r] = r.params := by
  rw [aggParams_cons]
  have hent : ∀ i j, weightedEntry [r] i j = (r.params.getD i []).getD j 0 :=
    fun i j => weightedEntry_single r i j hw
  simp only [hent]
  exact pv_map_range_getD r.params

theorem agg_entry_closed_form
    (k : ℕ) (results : List (ℕ × FitResult)) (failures : List ℕ)
    (g : ParameterVector) (σ : List ℕ) (i j : ℕ)
    (hok : aggregate_fit k results failures = .ok g)
    (hsh : ∀ pr ∈ survivors results failures, shapeSig pr.2.params = σ)
    (hi : i < σ.length) (hj : j < σ.getD i 0) :
    (g.getD i []).getD j 0 =
      weightedEntry ((survivors results failures).map Prod.snd) i j := by
  obtain ⟨hne, hg⟩ := aggregate_fit_ok k results failures g hok
  obtain ⟨r, rs, hs⟩ := List.exists_cons_of_ne_nil hne
  have hσ : shapeSig r.2.params = σ := hsh r (by rw [hs]; exact List.mem_cons_self r rs)
  have hi' : i < r.2.params.length := by
    rw [← shapeSig_length r.2.params, hσ]; exact hi
  have hj' : j < (r.2.params.getD i []).length := by
    rw [← shapeSig_getD r.2.params i, hσ]; exact hj
  rw [hg, hs, List.map_cons]
  exact aggParams_entry r.2 (rs.map Prod.snd) i j hi' hj'

theorem sum_map_const_q {α : Type} (l : List α) (c : ℚ) :
    (l.map (fun _ => c)).sum = l.length * c := by
  induction l with
  | nil => simp
  | cons a l ih => simp [ih]; ring

theorem weighted_eq_mean (l : List FitResult) (f : FitResult → ℚ) (n : ℕ)
    (hn : ∀ r ∈ l, r.sampleCount = n) (hpos : 0 < n) :
    (l.map (fun r => (r.sampleCount : ℚ) * f r)).sum / totalWeight l =
      (l.map f).sum / l.length := by
  have h1 : l.map (fun r => (r.sampleCount : ℚ) * f r) =
      l.map (fun r => (n : ℚ) * f r) :=
    List.map_congr_left (fun r hr => by rw [hn r hr])
  have h2 : totalWeight l = (n : ℚ) * l.length := by
    unfold totalWeight
    have hc : l.map (fun r => (r.sampleCount : ℚ)) = l.map (fun _ => (n : ℚ)) :=
      List.map_congr_left (fun r hr => by rw [hn r hr])
    rw [hc, sum_map_const_q]
    ring
  rw [h1, h2, List.sum_map_mul_left]
  exact mul_div_mul_left _ _ (by exact_mod_cast hpos.ne')

/-- Auxiliary form of aggregate_fit as a function of the survivor list. -/
def aggOfSurv (surv : List (ℕ × FitResult)) : Except AggError ParameterVector :=
  match surv with
  | [] => .error AggError.noViableResults
  | s => .ok (aggParams (s.map Prod.snd))

theorem aggregate_fit_eq (k : ℕ) (results : List (ℕ × FitResult))
    (failures : List ℕ) :
    aggregate_fit k results failures = aggOfSurv (survivors results failures) := rfl

theorem weightedEntry_perm (l l' : List FitResult) (i j : ℕ) (hp : l'.Perm l) :
    weightedEntry l' i j = weightedEntry l i j := by
  unfold weightedEntry totalWeight
  rw [(hp.map _).sum_eq, (hp.map _).sum_eq]

theorem aggParams_perm (l l' : List FitResult) (σ : List ℕ) (hp : l'.Perm l)
    (hsh : ∀ r ∈ l, shapeSig r.params = σ) :
    aggParams l' = aggParams l := by
  cases l with
  | nil => rw [hp.eq_nil]
  | cons r rs =>
      cases l' with
      | nil =>
          have hlen := hp.length_eq
          simp at hlen
      | cons r' rs' =>
          rw [aggParams_cons, aggParams_cons]
          have hσr : shapeSig r.params = σ := hsh r (List.mem_cons_self r rs)
          have hσr' : shapeSig r'.params = σ :=
            hsh r' (hp.subset (List.mem_cons_self r' rs'))
          have hlen : r'.params.length = r.params.length := by
            rw [← shapeSig_length r'.params, hσr', ← shapeSig_length r.params, hσr]
          have hild : ∀ i, (r'.params.getD i []).length =
              (r.params.getD i []).length := by
            intro i
            rw [← shapeSig_getD r'.params i, hσr', ← shapeSig_getD r.params i, hσr]
          rw [hlen]
          apply List.map_congr_left
          intro i _
          rw [hild i]
          apply List.map_congr_left
          intro j _
          exact weightedEntry_perm (r :: rs) (r' :: rs') i j hp

theorem aggOfSurv_perm (S S' : List (ℕ × FitResult)) (σ : List ℕ)
    (hp : S'.Perm S) (hsh : ∀ pr ∈ S, shapeSig pr.2.params = σ) :
    aggOfSurv S' = aggOfSurv S := by
  cases S with
  | nil => rw [hp.eq_nil]
  | cons r rs =>
      cases S' with
      | nil =>
          have hlen := hp.length_eq
          simp at hlen
      | cons r' rs' =>
          show Except.ok (aggParams ((r' :: rs').map Prod.snd)) =
            Except.ok (aggParams ((r :: rs).map Prod.snd))
          have hsnd : ((r' :: rs').map Prod.snd).Perm ((r :: rs).map Prod.snd) :=
            hp.map Prod.snd
          have hsh' : ∀ fr ∈ (r :: rs).map Prod.snd, shapeSig fr.params = σ := by
            intro fr hfr
            obtain ⟨pr, hpr, rfl⟩ := List.mem_map.mp hfr
            exact hsh pr hpr
          rw [aggParams_perm ((r :: rs).map Prod.snd) ((r' :: rs').map Prod.snd)
            σ hsnd hsh']

theorem zipWith_mul_weight (bce : ℚ → ℚ → ℚ) (w : ℚ → ℚ) :
    ∀ yt yp : List ℚ,
      List.zipWith (· * ·) (List.zipWith bce yt yp) (yt.map w) =
        List.zipWith (fun t p => bce t p * w t) yt yp := by
  intro yt
  induction yt with
  | nil => intro yp; rfl
  | cons t yt ih =>
      intro yp
      cases yp with
      | nil => rfl
      | cons p yp => simp [ih yp]

/-! ### Claim theorems -/

/-- C1: for every ordered sequence of surviving FitResults with positive
sample counts and identical shape signatures, aggregate_fit returns the
sample-count-weighted average of the participants parameter arrays: at
every aligned position, the output entry equals the sum over surviving
participants of sample count times local entry, divided by the sum of the
sample counts. -/
theorem aggregate_fit_is_weighted_average
    (k : ℕ) (results : List (ℕ × FitResult)) (failures : List ℕ)
    (g : ParameterVector) (σ : List ℕ) (i j : ℕ)
    (hok : aggregate_fit k results failures = .ok g)
    (hw : ∀ pr ∈ survivors results failures, 0 < pr.2.sampleCount)
    (hsh : ∀ pr ∈ survivors results failures, shapeSig pr.2.params = σ)
    (hi : i < σ.length) (hj : j < σ.getD i 0) :
    (g.getD i []).getD j 0 =
      ((survivors results failures).map (fun pr =>
          (pr.2.sampleCount : ℚ) * ((pr.2.params.getD i []).getD j 0))).sum /
        ((survivors results failures).map (fun pr =>
          (pr.2.sampleCount : ℚ))).sum := by
  rw [agg_entry_closed_form k results failures g σ i j hok hsh hi hj]
  unfold weightedEntry totalWeight
  rw [List.map_map, List.map_map]
  rfl

/-- C1 witness: two participants with sample counts 3000 and 1000 and
single-layer parameters 1.0 and 2.0 aggregate to 1.25 and satisfy the
weighted-average formula. -/
theorem aggregate_fit_is_weighted_average_witness :
    aggregate_fit 1 c1Results [] = Except.ok c1Agg ∧
    (c1Agg.getD 0 []).getD 0 0 = 5/4 ∧
    (c1Agg.getD 0 []).getD 0 0 =
      ((survivors c1Results []).map (fun pr =>
          (pr.2.sampleCount : ℚ) * ((pr.2.params.getD 0 []).getD 0 0))).sum /
        ((survivors c1Results []).map (fun pr =>
          (pr.2.sampleCount : ℚ))).sum := by
  have hagg : aggParams (c1Results.map Prod.snd) = c1Agg := by
    simp only [c1Results, List.map_cons, List.map_nil]
    simp [aggParams, weightedEntry, totalWeight, c1Agg, List.range_succ]
    norm_num
  have hok : aggregate_fit 1 c1Results [] = Except.ok c1Agg := by
    have hstep : aggregate_fit 1 c1Results [] =
        Except.ok (aggParams (c1Results.map Prod.snd)) := rfl
    rw [hstep, hagg]
  refine ⟨hok, by simp [c1Agg], ?_⟩
  exact aggregate_fit_is_weighted_average 1 c1Results [] c1Agg [1] 0 0
    hok (by decide) (by decide) (by decide) (by decide)

/-- C2: when zero results survive the failure filter, aggregate_fit fails
with NoViableResults and the Federation Run state is left exactly as it
was: the global ParameterVector keeps the prior round value and the round
index does not advance. -/
theorem aggregate_fit_no_viable_results
    (k : ℕ) (run : FederationRun) (results : List (ℕ × FitResult))
    (failures : List ℕ)
    (h : survivors results failures = []) :
    aggregate_fit k results failures = .error AggError.noViableResults ∧
      runAggregate run results failures = run := by
  have h1 : ∀ k', aggregate_fit k' results failures =
      .error AggError.noViableResults := by
    intro k'
    unfold aggregate_fit
    rw [h]
  refine ⟨h1 k, ?_⟩
  unfold runAggregate
  rw [h1 run.roundIndex]

/-- C2 witness: a round in which the only submitted result is listed in
failures aborts with NoViableResults and leaves the run state unchanged. -/
theorem aggregate_fit_no_viable_results_witness :
    aggregate_fit 2 [(7, ⟨[[3]], 500, 0⟩)] [7] =
      Except.error AggError.noViableResults ∧
    runAggregate ⟨[[9]], 2⟩ [(7, ⟨[[3]], 500, 0⟩)] [7] = ⟨[[9]], 2⟩ :=
  aggregate_fit_no_viable_results 2 ⟨[[9]], 2⟩ [(7, ⟨[[3]], 500, 0⟩)] [7]
    (by decide)

/-- C4: aggregate_fit with exactly one surviving FitResult returns that
participant's submitted ParameterVector unchanged. -/
theorem aggregate_fit_single_identity
    (k pid : ℕ) (results : List (ℕ × FitResult)) (failures : List ℕ)
    (r : FitResult)
    (h : survivors results failures = [(pid, r)])
    (hw : 0 < r.sampleCount) :
    aggregate_fit k results failures = .ok r.params := by
  unfold aggregate_fit
  rw [h]
  show Except.ok (aggParams ([(pid, r)].map Prod.snd)) = Except.ok r.params
  rw [List.map_cons, List.map_nil, aggParams_single r hw]

/-- C4 witness: a two-entry round in which one participant failed returns
the single surviving participant's parameters unchanged. -/
theorem aggregate_fit_single_identity_witness :
    aggregate_fit 3 [(1, ⟨[[2, 3], [4]], 1200, 0⟩), (2, ⟨[[5, 6], [7]], 800, 0⟩)]
      [2] = Except.ok [[2, 3], [4]] :=
  aggregate_fit_single_identity 3 1
    [(1, ⟨[[2, 3], [4]], 1200, 0⟩), (2, ⟨[[5, 6], [7]], 800, 0⟩)] [2]
    ⟨[[2, 3], [4]], 1200, 0⟩ (by decide) (by decide)

/-- C3: when every surviving participant reports the same positive sample
count, the aggregate_fit output equals the unweighted arithmetic mean of
the parameter arrays at every aligned position, and the aggregated
training metric equals the unweighted arithmetic mean of the
per-participant metrics. -/
theorem aggregate_fit_equal_counts_mean
    (k : ℕ) (results : List (ℕ × FitResult)) (failures : List ℕ)
    (g : ParameterVector) (σ : List ℕ) (n i j : ℕ)
    (hok : aggregate_fit k results failures = .ok g)
    (hn : ∀ pr ∈ survivors results failures, pr.2.sampleCount = n)
    (hpos : 0 < n)
    (hsh : ∀ pr ∈ survivors results failures, shapeSig pr.2.params = σ)
    (hi : i < σ.length) (hj : j < σ.getD i 0) :
    (g.getD i []).getD j 0 =
      ((survivors results failures).map (fun pr =>
          (pr.2.params.getD i []).getD j 0)).sum /
        ((survivors results failures).length : ℚ) ∧
    aggTrainingMetric ((survivors results failures).map Prod.snd) =
      ((survivors results failures).map (fun pr => pr.2.localTrainAuc)).sum /
        ((survivors results failures).length : ℚ) := by
  have hn' : ∀ r ∈ (survivors results failures).map Prod.snd,
      r.sampleCount = n := by
    intro r hr
    obtain ⟨pr, hpr, rfl⟩ := List.mem_map.mp hr
    exact hn pr hpr
  constructor
  · rw [agg_entry_closed_form k results failures g σ i j hok hsh hi hj]
    unfold weightedEntry
    rw [weighted_eq_mean ((survivors results failures).map Prod.snd)
      (fun r => (r.params.getD i []).getD j 0) n hn' hpos]
    rw [List.map_map, List.length_map]
    rfl
  · unfold aggTrainingMetric
    rw [weighted_eq_mean ((survivors results failures).map Prod.snd)
      (fun r => r.localTrainAuc) n hn' hpos]
    rw [List.map_map, List.length_map]
    rfl

/-- C3 witness: the recorded federated run — four participants with 4000
samples each — aggregates to the unweighted mean; the aggregated local
training AUC equals the mean of the four recorded local_train_auc values,
0.8251500331354019. -/
theorem aggregate_fit_equal_counts_mean_witness :
    aggregate_fit 1 recordedRun [] = Except.ok [[1]] ∧
    aggTrainingMetric ((survivors recordedRun []).map Prod.snd) =
      ((survivors recordedRun []).map (fun pr => pr.2.localTrainAuc)).sum /
        ((survivors recordedRun []).length : ℚ) ∧
    aggTrainingMetric ((survivors recordedRun []).map Prod.snd) =
      0.8251500331354019 := by
  have hagg : aggParams (recordedRun.map Prod.snd) = [[1]] := by
    simp only [recordedRun, List.map_cons, List.map_nil]
    simp [aggParams, weightedEntry, totalWeight, List.range_succ]
    norm_num
  have hok : aggregate_fit 1 recordedRun [] = Except.ok [[1]] := by
    have hstep : aggregate_fit 1 recordedRun [] =
        Except.ok (aggParams (recordedRun.map Prod.snd)) := rfl
    rw [hstep, hagg]
  have h := aggregate_fit_equal_counts_mean 1 recordedRun [] [[1]] [1] 4000 0 0
    hok (by decide) (by decide) (by decide) (by decide) (by decide)
  refine ⟨hok, h.2, ?_⟩
  rw [h.2]
  simp [survivors, recordedRun]
  norm_num

/-- C5: permuting the input result sequence does not change the output of
aggregate_fit — only the set of included participants matters, provided
the surviving results all carry the one shape signature of the federation
run. -/
theorem aggregate_fit_perm_invariant
    (k : ℕ) (results results' : List (ℕ × FitResult)) (failures : List ℕ)
    (σ : List ℕ)
    (hperm : results'.Perm results)
    (hsh : ∀ pr ∈ survivors results failures, shapeSig pr.2.params = σ) :
    aggregate_fit k results' failures = aggregate_fit k results failures := by
  rw [aggregate_fit_eq, aggregate_fit_eq]
  exact aggOfSurv_perm (survivors results failures)
    (survivors results' failures) σ (hperm.filter _) hsh

/-- C5 witness: swapping the two participants of a round leaves the
aggregated result unchanged. -/
theorem aggregate_fit_perm_invariant_witness :
    aggregate_fit 5 [(2, ⟨[[2]], 1000, 0⟩), (1, ⟨[[1]], 3000, 0⟩)] [] =
      aggregate_fit 5 [(1, ⟨[[1]], 3000, 0⟩), (2, ⟨[[2]], 1000, 0⟩)] [] :=
  aggregate_fit_perm_invariant 5
    [(1, ⟨[[1]], 3000, 0⟩), (2, ⟨[[2]], 1000, 0⟩)]
    [(2, ⟨[[2]], 1000, 0⟩), (1, ⟨[[1]], 3000, 0⟩)] [] [1]
    (List.Perm.swap _ _ _) (by decide)

/-- C6: for label vectors with entries in zero and one, the notebook
training loss equals the mean of elementwise binary cross-entropy
multiplied by a per-example weight, and the weight of a positive
(suspicious) label is exactly 100 times the weight of a negative label. -/
theorem weighted_loss_imbalance (bce : ℚ → ℚ → ℚ) (yTrue yPred : List ℚ)
    (hbin : ∀ t ∈ yTrue, t = 0 ∨ t = 1) :
    weighted_loss bce yTrue yPred = specWeightedLoss bce yTrue yPred ∧
      fraud_weight = 100 * non_fraud_weight := by
  refine ⟨?_, by norm_num [fraud_weight, non_fraud_weight]⟩
  simp only [weighted_loss, specWeightedLoss]
  rw [zipWith_mul_weight bce
    (fun t => if t = 1 then fraud_weight else non_fraud_weight) yTrue yPred]

/-- C6 witness: the loss equality and the 100-to-1 weight ratio at a
concrete squared-error kernel and a concrete two-example batch. -/
theorem weighted_loss_imbalance_witness :
    weighted_loss (fun t p => (t - p) * (t - p)) [1, 0] [1/2, 1/4] =
      specWeightedLoss (fun t p => (t - p) * (t - p)) [1, 0] [1/2, 1/4] ∧
      fraud_weight = 100 * non_fraud_weight :=
  weighted_loss_imbalance (fun t p => (t - p) * (t - p)) [1, 0] [1/2, 1/4]
    (by decide)

/-- C7: evaluation on a split whose labels contain only one class fails
with InsufficientLabelDiversity rather than returning a fabricated AUC,
and aggregate_evaluate excludes such a failed participant from the
weighted average of the metric instead of counting it as a zero; the
aggregate over the remaining participants is still produced. -/
theorem evaluate_label_diversity (auc : List ℚ → List ℚ → ℚ)
    (yTest preds : List ℚ) (c : ℚ)
    (hone : ∀ t ∈ yTest, t = c) (hc : c = 0 ∨ c = 1) :
    evaluate auc yTest preds = .error EvalError.insufficientLabelDiversity ∧
      ∀ l1 l2 : List (Except EvalError (ℕ × ℚ)),
        aggregate_evaluate
            (l1 ++ Except.error EvalError.insufficientLabelDiversity :: l2) =
          aggregate_evaluate (l1 ++ l2) := by
  constructor
  · have hnot : ¬ ((0 : ℚ) ∈ yTest ∧ (1 : ℚ) ∈ yTest) := by
      rintro ⟨h0, h1⟩
      rcases hc with rfl | rfl
      · exact absurd (hone 1 h1) (by norm_num)
      · exact absurd (hone 0 h0) (by norm_num)
    unfold evaluate
    rw [if_neg hnot]
  · intro l1 l2
    simp [aggregate_evaluate, List.filterMap_append, List.filterMap_cons]

/-- C7 witness: a three-example all-positive split fails with
InsufficientLabelDiversity, and inserting that failure between two
successful participants leaves the aggregated metric unchanged. -/
theorem evaluate_label_diversity_witness :
    evaluate (fun _ _ => 0) [1, 1, 1] [1/2, 1/2, 1/2] =
      .error EvalError.insufficientLabelDiversity ∧
    aggregate_evaluate
        [Except.ok (100, 1/2),
         Except.error EvalError.insufficientLabelDiversity,
         Except.ok (300, 3/4)] =
      aggregate_evaluate [Except.ok (100, 1/2), Except.ok (300, 3/4)] := by
  have h := evaluate_label_diversity (fun _ _ => 0) [1, 1, 1] [1/2, 1/2, 1/2] 1
    (by decide) (Or.inr rfl)
  exact ⟨h.1, h.2 [Except.ok (100, 1/2)] [Except.ok (300, 3/4)]⟩

/-- C9: load_transactions never propagates a failure: it is total, returns
the parsed transaction list when the download and parse succeed, and
silently returns the empty list on any failure. -/
theorem load_transactions_total :
    (∀ txs : List Transaction, load_transactions (Except.ok txs) = txs) ∧
      ∀ msg : String, load_transactions (Except.error msg) = [] :=
  ⟨fun _ => rfl, fun _ => rfl⟩

/-- C9 witness: the two branches of load_transactions at concrete
inputs. -/
theorem load_transactions_total_witness :
    load_transactions (Except.ok [[("Transaction_currency_amount", 5)]]) =
      [[("Transaction_currency_amount", 5)]] ∧
      load_transactions (Except.error "NoSuchKey") = [] :=
  ⟨load_transactions_total.1 _, load_transactions_total.2 _⟩

/-- C10: when the transaction data is unavailable and load_transactions
returns the empty list, evaluate_model fails during feature-column
selection with a KeyError naming the five transaction feature columns —
the data-loading failure propagates as an error of the caller instead of
being recovered locally. -/
theorem evaluate_model_empty_keyerror
    (download : Except String (List Transaction))
    (h : load_transactions download = []) :
    evaluate_model download = .error (PyError.keyError featureColumns) := by
  unfold evaluate_model
  rw [h]
  rfl

/-- C10 witness: a failed download crashes evaluate_model with the
KeyError on the five transaction feature columns. -/
theorem evaluate_model_empty_keyerror_witness :
    evaluate_model (Except.error "NoSuchKey") =
      .error (PyError.keyError featureColumns) :=
  evaluate_model_empty_keyerror (Except.error "NoSuchKey") rfl

end FLStandards
